import Mathlib

/-!
Verification of the name-section codec (`src/name_section.rs`).

The codec is embedded shallowly: byte streams are lists of naturals, the
fallible reader side returns `Except`, and the in-memory writer side is a pure
function to a byte list (in-memory writes cannot fail).  The external
collaborators (the `VarUint7`/`VarUint32` varint codecs, the length-prefixed
string codec and the ordered index map) are not part of the repository; they
are modelled from the spec's description of their wire format and contracts.
-/

set_option maxHeartbeats 1000000

namespace WasmBloat

/-- Bytes are modelled as natural numbers; the codecs only emit values
below 256. -/
abbrev Byte := Nat

/-- UTF-8 names are modelled as their byte sequences.  The UTF-8 validity
check of the external string codec is orthogonal to the framing behaviour
studied here and is not modelled. -/
abbrev Name := List Byte

/-- Decode errors, following the spec's error taxonomy (section 7):
truncated input, malformed varint, and the ordered-map collaborator's
out-of-order rejection. -/
inductive DErr where
  | truncated
  | malformedVarint
  | outOfOrder
deriving DecidableEq

/-- Modelled from the spec: emission loop of the external unsigned-LEB128
varint collaborator, with explicit fuel (five bytes suffice for 32 bits). -/
def lebSerAux : Nat → Nat → List Byte
  | 0, _ => []
  | fuel+1, n => if n < 128 then [n] else (n % 128 + 128) :: lebSerAux fuel (n / 128)

/-- Modelled from the spec: `VarUint32` serialization (unsigned 32-bit LEB
varint); the collaborator stores a 32-bit value, hence the reduction
modulo 2^32. -/
def varuint32Serialize (n : Nat) : List Byte := lebSerAux 5 (n % 2 ^ 32)

/-- Modelled from the spec: LEB128 decoding loop with fuel. -/
def lebDec : Nat → List Byte → Except DErr (Nat × List Byte)
  | 0, _ => .error .malformedVarint
  | _+1, [] => .error .truncated
  | fuel+1, b :: s =>
    if b < 128 then .ok (b, s)
    else
      match lebDec fuel s with
      | .ok (m, s1) => .ok (b % 128 + 128 * m, s1)
      | .error e => .error e

/-- Modelled from the spec: `VarUint32` deserialization -- at most five LEB
bytes, rejecting values outside the 32-bit range as malformed. -/
def varuint32Deserialize (s : List Byte) : Except DErr (Nat × List Byte) :=
  match lebDec 5 s with
  | .ok (n, s1) => if n < 2 ^ 32 then .ok (n, s1) else .error .malformedVarint
  | .error e => .error e

/-- Modelled from the spec: `VarUint7` deserialization -- the tag is a single
byte interpreted in the 7-bit range; a byte at or above 128 is a decode error
of the variable-length-integer layer (spec section 4.1, step 1). -/
def varuint7Deserialize (s : List Byte) : Except DErr (Nat × List Byte) :=
  match s with
  | [] => .error .truncated
  | b :: s1 => if b < 128 then .ok (b, s1) else .error .malformedVarint

/-- Reading an exact number of raw bytes (`read_exact`): fails with a
truncated-input error when the stream is too short. -/
def readBytes : Nat → List Byte → Except DErr (List Byte × List Byte)
  | 0, s => .ok ([], s)
  | _+1, [] => .error .truncated
  | n+1, b :: s =>
    match readBytes n s with
    | .ok (p, s1) => .ok (b :: p, s1)
    | .error e => .error e

/-- Modelled from the spec: the external length-prefixed string codec,
encode direction. -/
def stringSerialize (name : Name) : List Byte := varuint32Serialize name.length ++ name

/-- Modelled from the spec: the external length-prefixed string codec,
decode direction. -/
def stringDeserialize (s : List Byte) : Except DErr (Name × List Byte) :=
  match varuint32Deserialize s with
  | .ok (n, s1) => readBytes n s1
  | .error e => .error e

/-- Modelled from the spec: the ordered index map collaborator -- an
association list from 32-bit indices to elements, iterated in ascending
key order. -/
abbrev IndexMap (α : Type) := List (Nat × α)

/-- Keys strictly ascending along the list (the collaborator's ordering
contract). -/
abbrev keysSorted {α : Type} (m : IndexMap α) : Prop :=
  List.Pairwise (fun a b => a.1 < b.1) m

/-- Modelled from the spec: insertion into the ordered index map -- keys are
unique (inserting under a present key overwrites) and iteration order stays
ascending by key. -/
def IndexMap.insert {α : Type} : IndexMap α → Nat → α → IndexMap α
  | [], k, v => [(k, v)]
  | (k1, v1) :: tl, k, v =>
    if k < k1 then (k, v) :: (k1, v1) :: tl
    else if k = k1 then (k, v) :: tl
    else (k1, v1) :: IndexMap.insert tl k v

/-- Modelled from the spec: ordered-map wire format, encode direction --
the entry count as a varuint32, then each entry as its index (varuint32)
followed by the element, in iteration (ascending key) order. -/
def indexMapSerializeWith {α : Type} (serElem : α → List Byte) (m : IndexMap α) : List Byte :=
  varuint32Serialize m.length ++ (m.map (fun e => varuint32Serialize e.1 ++ serElem e.2)).flatten

/-- Modelled from the spec: decoding loop for the ordered-map entries,
enforcing strictly ascending unique indices (the collaborator's validation
contract). -/
def entriesDec {α : Type} (deElem : List Byte → Except DErr (α × List Byte)) :
    Nat → Option Nat → List Byte → Except DErr (IndexMap α × List Byte)
  | 0, _, s => .ok ([], s)
  | n+1, prev, s =>
    match varuint32Deserialize s with
    | .error e => .error e
    | .ok (k, s1) =>
      if (match prev with | none => true | some p => decide (p < k)) then
        match deElem s1 with
        | .error e => .error e
        | .ok (v, s2) =>
          match entriesDec deElem n (some k) s2 with
          | .ok (tl, s3) => .ok ((k, v) :: tl, s3)
          | .error e => .error e
      else .error .outOfOrder

/-- Modelled from the spec: ordered-map wire format, decode direction. -/
def indexMapDeserializeWith {α : Type} (deElem : List Byte → Except DErr (α × List Byte))
    (s : List Byte) : Except DErr (IndexMap α × List Byte) :=
  match varuint32Deserialize s with
  | .ok (n, s1) => entriesDec deElem n none s1
  | .error e => .error e

/-- The module name section: a single string (`name_section.rs`, line 89). -/
structure ModuleNameSection where
  name : Name
deriving DecidableEq

/-- `ModuleNameSection::serialize` (line 113): write the string. -/
def ModuleNameSection.serialize (s : ModuleNameSection) : List Byte :=
  stringSerialize s.name

/-- `ModuleNameSection::deserialize` (line 121): read one string. -/
def ModuleNameSection.deserialize (s : List Byte) : Except DErr (ModuleNameSection × List Byte) :=
  match stringDeserialize s with
  | .ok (n, s1) => .ok (⟨n⟩, s1)
  | .error e => .error e

/-- A map from indices to names (`name_section.rs`, line 199). -/
abbrev NameMap := IndexMap Name

/-- The function name section: a `NameMap` (line 129). -/
structure FunctionNameSection where
  names : NameMap
deriving DecidableEq

/-- `FunctionNameSection::serialize` (line 148): serialize the map. -/
def FunctionNameSection.serialize (s : FunctionNameSection) : List Byte :=
  indexMapSerializeWith stringSerialize s.names

/-- `FunctionNameSection::deserialize` (line 156): deserialize the map. -/
def FunctionNameSection.deserialize (s : List Byte) :
    Except DErr (FunctionNameSection × List Byte) :=
  match indexMapDeserializeWith stringDeserialize s with
  | .ok (m, s1) => .ok (⟨m⟩, s1)
  | .error e => .error e

/-- The local name section: a map from function indices to `NameMap`s
(line 164). -/
structure LocalNameSection where
  local_names : IndexMap NameMap
deriving DecidableEq

/-- `LocalNameSection::serialize` (line 184): serialize the nested map. -/
def LocalNameSection.serialize (s : LocalNameSection) : List Byte :=
  indexMapSerializeWith (indexMapSerializeWith stringSerialize) s.local_names

/-- `LocalNameSection::deserialize` (line 192): deserialize the nested map. -/
def LocalNameSection.deserialize (s : List Byte) :
    Except DErr (LocalNameSection × List Byte) :=
  match indexMapDeserializeWith (indexMapDeserializeWith stringDeserialize) s with
  | .ok (m, s1) => .ok (⟨m⟩, s1)
  | .error e => .error e

/-- The four-variant tagged union `NameSection` (lines 13-28).  The
constructor for the `Local` variant is called `locals` because `local` is a
reserved word. -/
inductive NameSection where
  | module (sect : ModuleNameSection)
  | function (sect : FunctionNameSection)
  | locals (sect : LocalNameSection)
  | unparsed (name_type : Nat) (name_payload : List Byte)
deriving DecidableEq

/-- The tag of the active variant, as computed by the `match` at the start of
`NameSection::serialize` (lines 34-53): 0, 1 and 2 for the known variants,
the stored tag for `Unparsed`. -/
def NameSection.name_type : NameSection → Nat
  | .module _ => 0
  | .function _ => 1
  | .locals _ => 2
  | .unparsed t _ => t

/-- The payload of the active variant, as computed by the same `match`:
for a known variant the sub-codec serialized into a fresh buffer, for
`Unparsed` the stored bytes. -/
def NameSection.name_payload : NameSection → List Byte
  | .module m => m.serialize
  | .function f => f.serialize
  | .locals l => l.serialize
  | .unparsed _ p => p

/-- `NameSection::serialize` (lines 33-58): the tag as a `VarUint7` byte, the
payload length as a `VarUint32`, then the payload bytes verbatim. -/
def NameSection.serialize (v : NameSection) : List Byte :=
  v.name_type :: varuint32Serialize v.name_payload.length ++ v.name_payload

/-- `NameSection::deserialize` (lines 64-84): read the `VarUint7` tag and the
`VarUint32` declared payload length, then dispatch on the tag; the three
known tags run their sub-codec on the remaining stream (the declared length
is not consulted), any other tag reads exactly the declared number of raw
bytes into an `Unparsed` value. -/
def NameSection.deserialize (s : List Byte) : Except DErr (NameSection × List Byte) :=
  match varuint7Deserialize s with
  | .error e => .error e
  | .ok (name_type, s1) =>
    match varuint32Deserialize s1 with
    | .error e => .error e
    | .ok (name_payload_len, s2) =>
      if name_type = 0 then
        match ModuleNameSection.deserialize s2 with
        | .ok (m, s3) => .ok (.module m, s3)
        | .error e => .error e
      else if name_type = 1 then
        match FunctionNameSection.deserialize s2 with
        | .ok (f, s3) => .ok (.function f, s3)
        | .error e => .error e
      else if name_type = 2 then
        match LocalNameSection.deserialize s2 with
        | .ok (l, s3) => .ok (.locals l, s3)
        | .error e => .error e
      else
        match readBytes name_payload_len s2 with
        | .ok (p, s3) => .ok (.unparsed name_type p, s3)
        | .error e => .error e

/-- Well-formedness of a `NameMap` value as built through the container's
interface: keys strictly ascending and everything within 32-bit bounds. -/
@[reducible] def NameMap.wf (m : NameMap) : Prop :=
  keysSorted m ∧ m.length < 2 ^ 32 ∧ ∀ e ∈ m, e.1 < 2 ^ 32 ∧ e.2.length < 2 ^ 32

/-- Well-formedness of the outer map of a `LocalNameSection`. -/
@[reducible] def localNamesWf (l : IndexMap NameMap) : Prop :=
  keysSorted l ∧ l.length < 2 ^ 32 ∧ ∀ e ∈ l, e.1 < 2 ^ 32 ∧ NameMap.wf e.2

/-- Round-trippable `NameSection` values: the container invariants and 32-bit
bounds for the known variants; for `Unparsed`, a tag that is neither a known
tag (otherwise decoding dispatches to a sub-codec) nor outside the 7-bit
range (otherwise the tag read fails), and a 32-bit payload length. -/
@[reducible] def NameSection.wf : NameSection → Prop
  | .module m => m.name.length < 2 ^ 32
  | .function f => NameMap.wf f.names
  | .locals l => localNamesWf l.local_names
  | .unparsed t p => 3 ≤ t ∧ t < 128 ∧ p.length < 2 ^ 32

/-- A payload that is correctly formed for its tag: for the three known tags
the matching sub-codec decodes it completely and re-encodes it to the same
bytes (the spec's per-sub-codec round-trip invariant); for any other tag the
payload is opaque. -/
@[reducible] def payloadValid (t : Nat) (p : List Byte) : Prop :=
  if t = 0 then
    ∃ m, ModuleNameSection.deserialize p = .ok (m, []) ∧ ModuleNameSection.serialize m = p
  else if t = 1 then
    ∃ f, FunctionNameSection.deserialize p = .ok (f, []) ∧ FunctionNameSection.serialize f = p
  else if t = 2 then
    ∃ l, LocalNameSection.deserialize p = .ok (l, []) ∧ LocalNameSection.serialize l = p
  else True

/-! ## Properties of the varint and raw-byte primitives -/

/-- Decoding an emitted LEB128 chunk recovers the value and consumes exactly
the emitted bytes, for any decoder fuel at least as large as the (sufficient)
encoder fuel. -/
theorem lebDec_lebSerAux : ∀ (fS fD n : Nat) (rest : List Byte),
    0 < fS → n < 128 ^ fS → fS ≤ fD →
    lebDec fD (lebSerAux fS n ++ rest) = .ok (n, rest) := by
  intro fS
  induction fS with
  | zero => intro _ _ _ h; omega
  | succ fS ih =>
    intro fD n rest _ hn hfD
    obtain ⟨f, rfl⟩ : ∃ f, fD = f + 1 := ⟨fD - 1, by omega⟩
    by_cases hsmall : n < 128
    · simp [lebSerAux, hsmall, lebDec]
    · have hfS : 0 < fS := by
        rcases Nat.eq_zero_or_pos fS with h | h
        · subst h; rw [pow_one] at hn; omega
        · exact h
      have hdiv : n / 128 < 128 ^ fS := by
        rw [Nat.div_lt_iff_lt_mul (by norm_num)]
        calc n < 128 ^ (fS + 1) := hn
          _ = 128 ^ fS * 128 := by ring
      have hrec := ih f (n / 128) rest hfS hdiv (by omega)
      have hb : ¬ (n % 128 + 128 < 128) := by omega
      simp only [lebSerAux, if_neg hsmall, List.cons_append, lebDec, if_neg hb, hrec]
      have : n % 128 + 128 * (n / 128) = n := by omega
      simp [Nat.add_mod_right, this]

/-- `VarUint32` round-trip: decoding an emitted varint yields the stored
32-bit value and leaves the trailing bytes untouched. -/
theorem varuint32_roundtrip (n : Nat) (rest : List Byte) :
    varuint32Deserialize (varuint32Serialize n ++ rest) = .ok (n % 2 ^ 32, rest) := by
  have hmod : n % 2 ^ 32 < 2 ^ 32 := Nat.mod_lt _ (by norm_num)
  have h5 : n % 2 ^ 32 < 128 ^ 5 := lt_of_lt_of_le hmod (by norm_num)
  have h := lebDec_lebSerAux 5 5 (n % 2 ^ 32) rest (by omega) h5 (by omega)
  simp only [varuint32Serialize, varuint32Deserialize]
  rw [h]
  simp
  omega

/-- Reading exactly the length of a prefix returns that prefix and the rest. -/
theorem readBytes_exact : ∀ (p rest : List Byte),
    readBytes p.length (p ++ rest) = .ok (p, rest) := by
  intro p
  induction p with
  | nil => intro rest; simp [readBytes]
  | cons b tl ih => intro rest; simp [readBytes, ih]

/-- Reading more bytes than the stream holds fails with a truncated-input
error. -/
theorem readBytes_short : ∀ (s : List Byte) (n : Nat), s.length < n →
    readBytes n s = .error .truncated := by
  intro s
  induction s with
  | nil =>
    intro n hn
    obtain ⟨m, rfl⟩ : ∃ m, n = m + 1 := ⟨n - 1, by omega⟩
    simp [readBytes]
  | cons b tl ih =>
    intro n hn
    obtain ⟨m, rfl⟩ : ∃ m, n = m + 1 := ⟨n - 1, by omega⟩
    have := ih m (by simpa using hn)
    simp [readBytes, this]

/-- String codec round-trip for a name within the 32-bit length bound. -/
theorem string_roundtrip (name : Name) (rest : List Byte)
    (h : name.length < 2 ^ 32) :
    stringDeserialize (stringSerialize name ++ rest) = .ok (name, rest) := by
  have h1 := varuint32_roundtrip name.length (name ++ rest)
  rw [Nat.mod_eq_of_lt h] at h1
  simp only [stringSerialize, stringDeserialize, List.append_assoc]
  rw [h1]
  exact readBytes_exact name rest

/-! ## Properties of the ordered index map codec -/

/-- Decoding the serialized entries of a sorted map recovers the map,
provided each element round-trips through the element codec. -/
theorem entriesDec_serialized {α : Type}
    (serElem : α → List Byte) (deElem : List Byte → Except DErr (α × List Byte))
    (P : α → Prop)
    (helem : ∀ (v : α) (rest : List Byte), P v → deElem (serElem v ++ rest) = .ok (v, rest)) :
    ∀ (m : IndexMap α) (prev : Option Nat) (rest : List Byte),
      keysSorted m →
      (∀ e ∈ m, e.1 < 2 ^ 32 ∧ P e.2) →
      (∀ e ∈ m, match prev with | none => True | some q => q < e.1) →
      entriesDec deElem m.length prev
        ((m.map (fun e => varuint32Serialize e.1 ++ serElem e.2)).flatten ++ rest) =
        .ok (m, rest) := by
  intro m
  induction m with
  | nil => intro prev rest _ _ _; simp [entriesDec]
  | cons e tl ih =>
    obtain ⟨k, v⟩ := e
    intro prev rest hsort hbound hprev
    have hk32 : k < 2 ^ 32 := (hbound (k, v) (by simp)).1
    have hPv : P v := (hbound (k, v) (by simp)).2
    have hkey : ∀ e ∈ tl, k < e.1 := by
      intro e he
      exact (List.pairwise_cons.mp hsort).1 e he
    have hvar := varuint32_roundtrip k
      (serElem v ++ ((tl.map (fun e => varuint32Serialize e.1 ++ serElem e.2)).flatten ++ rest))
    rw [Nat.mod_eq_of_lt hk32] at hvar
    have hrec := ih (some k) rest (List.pairwise_cons.mp hsort).2
      (fun e he => hbound e (List.mem_cons_of_mem _ he))
      (fun e he => hkey e he)
    have helem1 := helem v
      ((tl.map (fun e => varuint32Serialize e.1 ++ serElem e.2)).flatten ++ rest) hPv
    cases prev with
    | none =>
      simp only [List.map_cons, List.flatten_cons, List.append_assoc, List.length_cons,
        entriesDec, hvar, helem1, hrec]
      simp
    | some q =>
      have hq : q < k := by simpa using hprev (k, v) (by simp)
      simp only [List.map_cons, List.flatten_cons, List.append_assoc, List.length_cons,
        entriesDec, hvar, helem1, hrec]
      simp [hq]

/-- Decoding a serialized sorted map (count plus entries) recovers it. -/
theorem indexMapDeserializeWith_serialized {α : Type}
    (serElem : α → List Byte) (deElem : List Byte → Except DErr (α × List Byte))
    (P : α → Prop)
    (helem : ∀ (v : α) (rest : List Byte), P v → deElem (serElem v ++ rest) = .ok (v, rest))
    (m : IndexMap α) (rest : List Byte)
    (hsort : keysSorted m) (hlen : m.length < 2 ^ 32)
    (hbound : ∀ e ∈ m, e.1 < 2 ^ 32 ∧ P e.2) :
    indexMapDeserializeWith deElem (indexMapSerializeWith serElem m ++ rest) =
      .ok (m, rest) := by
  have hvar := varuint32_roundtrip m.length
    ((m.map (fun e => varuint32Serialize e.1 ++ serElem e.2)).flatten ++ rest)
  rw [Nat.mod_eq_of_lt hlen] at hvar
  simp only [indexMapSerializeWith, indexMapDeserializeWith, List.append_assoc]
  rw [hvar]
  exact entriesDec_serialized serElem deElem P helem m none rest hsort hbound
    (fun e _ => trivial)

/-- `NameMap` codec round-trip under the container invariants. -/
theorem nameMap_roundtrip (m : NameMap) (rest : List Byte) (h : NameMap.wf m) :
    indexMapDeserializeWith stringDeserialize
      (indexMapSerializeWith stringSerialize m ++ rest) = .ok (m, rest) := by
  obtain ⟨hsort, hlen, hbound⟩ := h
  exact indexMapDeserializeWith_serialized stringSerialize stringDeserialize
    (fun v => v.length < 2 ^ 32) (fun v rest hv => string_roundtrip v rest hv)
    m rest hsort hlen hbound

/-- Nested local-names codec round-trip under the container invariants. -/
theorem localNames_roundtrip (l : IndexMap NameMap) (rest : List Byte)
    (h : localNamesWf l) :
    indexMapDeserializeWith (indexMapDeserializeWith stringDeserialize)
      (indexMapSerializeWith (indexMapSerializeWith stringSerialize) l ++ rest) =
      .ok (l, rest) := by
  obtain ⟨hsort, hlen, hbound⟩ := h
  exact indexMapDeserializeWith_serialized
    (indexMapSerializeWith stringSerialize)
    (indexMapDeserializeWith stringDeserialize)
    NameMap.wf (fun v rest hv => nameMap_roundtrip v rest hv)
    l rest hsort hlen hbound

/-! ## Properties of ordered-map insertion -/

/-- Every entry of `insert m k v` either carries the inserted key or was
already in `m`. -/
theorem IndexMap.mem_insert {α : Type} :
    ∀ (m : IndexMap α) (k : Nat) (v : α) (e : Nat × α),
      e ∈ IndexMap.insert m k v → e.1 = k ∨ e ∈ m := by
  intro m k v
  induction m with
  | nil =>
    intro e he
    simp [IndexMap.insert] at he
    subst he
    exact Or.inl rfl
  | cons hd tl ih =>
    obtain ⟨k1, v1⟩ := hd
    intro e he
    by_cases h1 : k < k1
    · simp only [IndexMap.insert, if_pos h1] at he
      rcases List.mem_cons.mp he with rfl | he
      · exact Or.inl rfl
      · exact Or.inr he
    · by_cases h2 : k = k1
      · simp only [IndexMap.insert, if_neg h1, if_pos h2] at he
        rcases List.mem_cons.mp he with rfl | he
        · exact Or.inl rfl
        · exact Or.inr (List.mem_cons_of_mem _ he)
      · simp only [IndexMap.insert, if_neg h1, if_neg h2] at he
        rcases List.mem_cons.mp he with rfl | he
        · exact Or.inr (List.mem_cons_self _ _)
        · rcases ih e he with h | h
          · exact Or.inl h
          · exact Or.inr (List.mem_cons_of_mem _ h)

/-- Insertion preserves the strictly-ascending-keys invariant. -/
theorem IndexMap.insert_sorted {α : Type} :
    ∀ (m : IndexMap α) (k : Nat) (v : α),
      keysSorted m → keysSorted (IndexMap.insert m k v) := by
  intro m k v
  induction m with
  | nil => intro _; simp [IndexMap.insert]
  | cons hd tl ih =>
    obtain ⟨k1, v1⟩ := hd
    intro hsort
    obtain ⟨hhead, htail⟩ := List.pairwise_cons.mp hsort
    by_cases h1 : k < k1
    · simp only [IndexMap.insert, if_pos h1]
      refine List.pairwise_cons.mpr ⟨?_, hsort⟩
      intro e he
      rcases List.mem_cons.mp he with rfl | he
      · exact h1
      · exact lt_trans h1 (hhead e he)
    · by_cases h2 : k = k1
      · simp only [IndexMap.insert, if_neg h1, if_pos h2]
        refine List.pairwise_cons.mpr ⟨?_, htail⟩
        intro e he
        rw [h2]
        exact hhead e he
      · simp only [IndexMap.insert, if_neg h1, if_neg h2]
        refine List.pairwise_cons.mpr ⟨?_, ih htail⟩
        intro e he
        rcases IndexMap.mem_insert tl k v e he with h | h
        · rw [h]; omega
        · exact hhead e h

/-- Re-inserting under the same key is the same as inserting the last value
once: the overwrite law. -/
theorem IndexMap.insert_insert_same {α : Type} :
    ∀ (m : IndexMap α) (k : Nat) (v1 v2 : α),
      IndexMap.insert (IndexMap.insert m k v1) k v2 = IndexMap.insert m k v2 := by
  intro m k v1 v2
  induction m with
  | nil => simp [IndexMap.insert]
  | cons hd tl ih =>
    obtain ⟨k1, w⟩ := hd
    by_cases h1 : k < k1
    · simp [IndexMap.insert, if_pos h1, lt_irrefl]
    · by_cases h2 : k = k1
      · simp [IndexMap.insert, if_neg h1, if_pos h2, lt_irrefl]
      · simp [IndexMap.insert, if_neg h1, if_neg h2, ih]

/-- The length of `insert m k v` does not depend on the inserted value. -/
theorem IndexMap.insert_length_congr {α : Type} :
    ∀ (m : IndexMap α) (k : Nat) (v1 v2 : α),
      (IndexMap.insert m k v1).length = (IndexMap.insert m k v2).length := by
  intro m k v1 v2
  induction m with
  | nil => simp [IndexMap.insert]
  | cons hd tl ih =>
    obtain ⟨k1, w⟩ := hd
    by_cases h1 : k < k1
    · simp [IndexMap.insert, if_pos h1]
    · by_cases h2 : k = k1
      · simp [IndexMap.insert, if_neg h1, if_pos h2]
      · simp [IndexMap.insert, if_neg h1, if_neg h2, ih]

/-- Looking up the key just inserted returns the inserted value. -/
theorem IndexMap.lookup_insert {α : Type} :
    ∀ (m : IndexMap α) (k : Nat) (v : α),
      List.lookup k (IndexMap.insert m k v) = some v := by
  intro m k v
  induction m with
  | nil => simp [IndexMap.insert, List.lookup]
  | cons hd tl ih =>
    obtain ⟨k1, w⟩ := hd
    by_cases h1 : k < k1
    · simp [IndexMap.insert, if_pos h1, List.lookup]
    · by_cases h2 : k = k1
      · simp [IndexMap.insert, if_neg h1, if_pos h2, List.lookup]
      · have hne : (k == k1) = false := beq_eq_false_iff_ne.mpr h2
        simp [IndexMap.insert, if_neg h1, if_neg h2, List.lookup, hne, ih]

/-! ## Claims -/

/-- Claim C1 (amended): serializing and then deserializing yields the original
value for every `NameSection` satisfying the constructibility invariants,
where the `Unparsed` tag must lie strictly between the known tags and the
7-bit bound (an `Unparsed` value with tag 0, 1 or 2 re-decodes through the
matching sub-codec instead, and a tag of 128 or more is rejected by the
`VarUint7` read). -/
theorem roundtrip_of_wf :
    ∀ v : NameSection, v.wf →
      NameSection.deserialize (NameSection.serialize v) = .ok (v, []) := by
  intro v hwf
  cases v with
  | module m =>
    have hname : m.name.length < 2 ^ 32 := hwf
    have hstr : stringDeserialize (stringSerialize m.name) = .ok (m.name, []) := by
      simpa using string_roundtrip m.name [] hname
    have hvar := varuint32_roundtrip (stringSerialize m.name).length
      (stringSerialize m.name)
    simp [NameSection.serialize, NameSection.name_type, NameSection.name_payload,
      NameSection.deserialize, varuint7Deserialize, ModuleNameSection.serialize,
      ModuleNameSection.deserialize, hvar, hstr]
  | function f =>
    have hmap : indexMapDeserializeWith stringDeserialize
        (indexMapSerializeWith stringSerialize f.names) = .ok (f.names, []) := by
      simpa using nameMap_roundtrip f.names [] hwf
    have hvar := varuint32_roundtrip (indexMapSerializeWith stringSerialize f.names).length
      (indexMapSerializeWith stringSerialize f.names)
    simp [NameSection.serialize, NameSection.name_type, NameSection.name_payload,
      NameSection.deserialize, varuint7Deserialize, FunctionNameSection.serialize,
      FunctionNameSection.deserialize, hvar, hmap]
  | locals l =>
    have hmap : indexMapDeserializeWith (indexMapDeserializeWith stringDeserialize)
        (indexMapSerializeWith (indexMapSerializeWith stringSerialize) l.local_names) =
        .ok (l.local_names, []) := by
      simpa using localNames_roundtrip l.local_names [] hwf
    have hvar := varuint32_roundtrip
      (indexMapSerializeWith (indexMapSerializeWith stringSerialize) l.local_names).length
      (indexMapSerializeWith (indexMapSerializeWith stringSerialize) l.local_names)
    simp [NameSection.serialize, NameSection.name_type, NameSection.name_payload,
      NameSection.deserialize, varuint7Deserialize, LocalNameSection.serialize,
      LocalNameSection.deserialize, hvar, hmap]
  | unparsed t p =>
    obtain ⟨h3, h128, hp⟩ := hwf
    have hvar := varuint32_roundtrip p.length p
    rw [Nat.mod_eq_of_lt hp] at hvar
    have hread : readBytes p.length p = .ok (p, []) := by
      simpa using readBytes_exact p []
    simp [NameSection.serialize, NameSection.name_type, NameSection.name_payload,
      NameSection.deserialize, varuint7Deserialize, h128, hvar, hread,
      (show t ≠ 0 by omega), (show t ≠ 1 by omega), (show t ≠ 2 by omega)]

/-- Witness for C1: the round-trip theorem applied to a concrete local-name
section mirroring the repository's own test value. -/
theorem roundtrip_of_wf_witness :
    NameSection.wf (.locals ⟨[(0, [(0, [109, 115, 103])])]⟩) ∧
      NameSection.deserialize
        (NameSection.serialize (.locals ⟨[(0, [(0, [109, 115, 103])])]⟩)) =
        .ok (.locals ⟨[(0, [(0, [109, 115, 103])])]⟩, []) :=
  ⟨by decide, roundtrip_of_wf (.locals ⟨[(0, [(0, [109, 115, 103])])]⟩) (by decide)⟩

/-- Counterexample to C1 as stated: the constructible value
`Unparsed { name_type: 0, name_payload: [0] }` serializes to `[0, 1, 0]`,
which deserializes to `Module("")` -- a different value -- because decoding
dispatches on the tag before ever producing an `Unparsed` variant. -/
theorem roundtrip_unparsed_zero_counterexample :
    NameSection.deserialize (NameSection.serialize (.unparsed 0 [0])) =
      .ok (.module ⟨[]⟩, []) ∧
      NameSection.module ⟨[]⟩ ≠ .unparsed 0 [0] :=
  ⟨rfl, by decide⟩

/-- Claim C2: a correctly formed name section -- tag in the 7-bit range,
declared length equal to the actual payload length, and a payload that is
valid for its tag -- deserializes successfully, and re-serializing the result
reproduces the input bytes exactly. -/
theorem decode_encode_of_valid :
    ∀ (t : Nat) (p : List Byte), t < 128 → p.length < 2 ^ 32 → payloadValid t p →
      ∃ v : NameSection,
        NameSection.deserialize (t :: varuint32Serialize p.length ++ p) = .ok (v, []) ∧
        NameSection.serialize v = t :: varuint32Serialize p.length ++ p := by
  intro t p ht hp hvalid
  have hvar := varuint32_roundtrip p.length p
  rw [Nat.mod_eq_of_lt hp] at hvar
  by_cases h0 : t = 0
  · subst h0
    have hv : ∃ m, ModuleNameSection.deserialize p = .ok (m, []) ∧
        ModuleNameSection.serialize m = p := hvalid
    obtain ⟨m, hd, hs⟩ := hv
    refine ⟨.module m, ?_, ?_⟩
    · simp [NameSection.deserialize, varuint7Deserialize, hvar, hd]
    · simp only [NameSection.serialize, NameSection.name_type, NameSection.name_payload, hs]
  · by_cases h1 : t = 1
    · subst h1
      have hv : ∃ f, FunctionNameSection.deserialize p = .ok (f, []) ∧
          FunctionNameSection.serialize f = p := hvalid
      obtain ⟨f, hd, hs⟩ := hv
      refine ⟨.function f, ?_, ?_⟩
      · simp [NameSection.deserialize, varuint7Deserialize, hvar, hd]
      · simp only [NameSection.serialize, NameSection.name_type, NameSection.name_payload, hs]
    · by_cases h2 : t = 2
      · subst h2
        have hv : ∃ l, LocalNameSection.deserialize p = .ok (l, []) ∧
            LocalNameSection.serialize l = p := hvalid
        obtain ⟨l, hd, hs⟩ := hv
        refine ⟨.locals l, ?_, ?_⟩
        · simp [NameSection.deserialize, varuint7Deserialize, hvar, hd]
        · simp only [NameSection.serialize, NameSection.name_type, NameSection.name_payload, hs]
      · refine ⟨.unparsed t p, ?_, rfl⟩
        have hread : readBytes p.length p = .ok (p, []) := by
          simpa using readBytes_exact p []
        simp [NameSection.deserialize, varuint7Deserialize, ht, hvar, hread, h0, h1, h2]

/-- Witness for C2: a function name section with an empty map, framed as
tag 1, length 1, payload `[0]`. -/
theorem decode_encode_of_valid_witness :
    ∃ v : NameSection,
      NameSection.deserialize
        (1 :: varuint32Serialize ([0] : List Byte).length ++ [0]) = .ok (v, []) ∧
      NameSection.serialize v = 1 :: varuint32Serialize ([0] : List Byte).length ++ [0] :=
  decode_encode_of_valid 1 [0] (by decide) (by decide) ⟨⟨[]⟩, rfl, rfl⟩

/-- Claim C3 (amended): a buffer whose first byte is an unknown tag inside
the 7-bit range (3 to 127) and that carries at least the declared number of
payload bytes decodes without error to `Unparsed` with that exact tag and
payload, and re-serializing reproduces the consumed bytes exactly.  First
bytes of 128 or more are rejected by the `VarUint7` read instead. -/
theorem deserialize_unknown_tag :
    ∀ (t : Nat) (p rest : List Byte), 3 ≤ t → t < 128 → p.length < 2 ^ 32 →
      NameSection.deserialize (t :: varuint32Serialize p.length ++ (p ++ rest)) =
        .ok (.unparsed t p, rest) ∧
      NameSection.serialize (.unparsed t p) = t :: varuint32Serialize p.length ++ p := by
  intro t p rest h3 h128 hp
  have hvar := varuint32_roundtrip p.length (p ++ rest)
  rw [Nat.mod_eq_of_lt hp] at hvar
  refine ⟨?_, rfl⟩
  simp [NameSection.deserialize, varuint7Deserialize, h128, hvar, readBytes_exact,
    (show t ≠ 0 by omega), (show t ≠ 1 by omega), (show t ≠ 2 by omega)]

/-- Witness for C3: the spec's own example, tag 120 with payload
`[0, 1, 2]`. -/
theorem deserialize_unknown_tag_witness :
    NameSection.deserialize
      (120 :: varuint32Serialize ([0, 1, 2] : List Byte).length ++ ([0, 1, 2] ++ [])) =
      .ok (.unparsed 120 [0, 1, 2], []) ∧
    NameSection.serialize (.unparsed 120 [0, 1, 2]) =
      120 :: varuint32Serialize ([0, 1, 2] : List Byte).length ++ [0, 1, 2] :=
  deserialize_unknown_tag 120 [0, 1, 2] [] (by decide) (by decide) (by decide)

/-- Counterexample to C3 as stated: 128 is a value other than 0, 1 and 2,
and the buffer `[128, 0]` offers all 0 declared payload bytes, yet
deserialization reports a malformed-varint error instead of yielding
`Unparsed`, because the 7-bit tag read rejects bytes at or above 128. -/
theorem deserialize_tag128_counterexample :
    NameSection.deserialize [128, 0] = .error .malformedVarint ∧
      ¬(128 = 0 ∨ 128 = 1 ∨ 128 = 2) :=
  ⟨rfl, by decide⟩

/-- Claim C4: serialization emits the variant's tag byte, then the payload
length as a varuint32, then the payload verbatim, where tag and payload are
exactly the pair computed from the active variant (0/1/2 with the sub-codec's
fresh buffer for the known variants, the stored tag and bytes for
`Unparsed`). -/
theorem serialize_layout :
    ∀ v : NameSection,
      NameSection.serialize v =
        v.name_type :: varuint32Serialize v.name_payload.length ++ v.name_payload ∧
      (∀ m, NameSection.name_type (.module m) = 0 ∧
        NameSection.name_payload (.module m) = ModuleNameSection.serialize m) ∧
      (∀ f, NameSection.name_type (.function f) = 1 ∧
        NameSection.name_payload (.function f) = FunctionNameSection.serialize f) ∧
      (∀ l, NameSection.name_type (.locals l) = 2 ∧
        NameSection.name_payload (.locals l) = LocalNameSection.serialize l) ∧
      (∀ t p, NameSection.name_type (.unparsed t p) = t ∧
        NameSection.name_payload (.unparsed t p) = p) :=
  fun _ => ⟨rfl, fun _ => ⟨rfl, rfl⟩, fun _ => ⟨rfl, rfl⟩, fun _ => ⟨rfl, rfl⟩,
    fun _ _ => ⟨rfl, rfl⟩⟩

/-- Claim C5: for a known tag the decode result does not depend on the
declared payload length: two buffers differing only in that field decode
identically (same value or same failure). -/
theorem deserialize_known_tag_ignores_len :
    ∀ (t n1 n2 : Nat) (s : List Byte), t = 0 ∨ t = 1 ∨ t = 2 →
      NameSection.deserialize (t :: varuint32Serialize n1 ++ s) =
        NameSection.deserialize (t :: varuint32Serialize n2 ++ s) := by
  intro t n1 n2 s ht
  have h1 := varuint32_roundtrip n1 s
  have h2 := varuint32_roundtrip n2 s
  rcases ht with rfl | rfl | rfl <;>
    simp [NameSection.deserialize, varuint7Deserialize, h1, h2]

/-- Witness for C5: declared lengths 0 and 99 in front of the same
function-name payload decode to the same result. -/
theorem deserialize_known_tag_ignores_len_witness :
    NameSection.deserialize (1 :: varuint32Serialize 0 ++ [0]) =
      NameSection.deserialize (1 :: varuint32Serialize 99 ++ [0]) :=
  deserialize_known_tag_ignores_len 1 0 99 [0] (Or.inr (Or.inl rfl))

/-- Claim C6 (amended): for an unknown tag (3 to 127), a declared payload
length larger than the bytes actually present makes deserialization fail
with a truncated-input error.  (For the known tags the declared length is
ignored, so the original universal claim fails there.) -/
theorem deserialize_truncated_unknown_tag :
    ∀ (t n : Nat) (p : List Byte), 3 ≤ t → t < 128 → n < 2 ^ 32 → p.length < n →
      NameSection.deserialize (t :: varuint32Serialize n ++ p) = .error .truncated := by
  intro t n p h3 h128 hn hlen
  have hvar := varuint32_roundtrip n p
  rw [Nat.mod_eq_of_lt hn] at hvar
  have hread := readBytes_short p n hlen
  simp [NameSection.deserialize, varuint7Deserialize, h128, hvar, hread,
    (show t ≠ 0 by omega), (show t ≠ 1 by omega), (show t ≠ 2 by omega)]

/-- Witness for C6: tag 3 declaring 5 payload bytes over a 2-byte stream. -/
theorem deserialize_truncated_unknown_tag_witness :
    NameSection.deserialize (3 :: varuint32Serialize 5 ++ [1, 2]) = .error .truncated :=
  deserialize_truncated_unknown_tag 3 5 [1, 2] (by decide) (by decide) (by decide) (by decide)

/-- Counterexample to C6 as stated: the buffer `[1, 100, 0]` declares 100
payload bytes but only 1 is present, yet deserialization succeeds (as an
empty function-name section) because the known-tag path never checks the
declared length. -/
theorem deserialize_truncated_counterexample :
    NameSection.deserialize [1, 100, 0] = .ok (.function ⟨[]⟩, []) ∧ (1 : Nat) < 100 :=
  ⟨rfl, by decide⟩

/-- Claim C7: any sequence of insertions, in any numeric order, leaves the
map's entries in strictly ascending index order, and serializing a section
emits exactly those entries in that list order. -/
theorem inserts_serialize_in_ascending_order :
    (∀ (α : Type) (m ops : IndexMap α),
      keysSorted m →
      List.Pairwise (· < ·)
        ((ops.foldl (fun acc e => IndexMap.insert acc e.1 e.2) m).map Prod.fst)) ∧
    (∀ f : FunctionNameSection,
      FunctionNameSection.serialize f =
        varuint32Serialize f.names.length ++
          (f.names.map (fun e => varuint32Serialize e.1 ++ stringSerialize e.2)).flatten) := by
  constructor
  · intro α m ops h
    have hsorted : keysSorted (ops.foldl (fun acc e => IndexMap.insert acc e.1 e.2) m) := by
      induction ops generalizing m with
      | nil => exact h
      | cons e tl ih => exact ih _ (IndexMap.insert_sorted m e.1 e.2 h)
    exact List.pairwise_map.mpr hsorted
  · intro f
    rfl

/-- Witness for C7: inserting index 5 and then index 0 into an empty map
yields the entries with index 0 first (strictly ascending keys). -/
theorem inserts_serialize_in_ascending_order_witness :
    List.Pairwise (· < ·)
      ((([(5, [104, 105]), (0, [119])] : List (Nat × Name)).foldl
        (fun acc e => IndexMap.insert acc e.1 e.2) ([] : IndexMap Name)).map Prod.fst) :=
  inserts_serialize_in_ascending_order.1 Name [] [(5, [104, 105]), (0, [119])]
    List.Pairwise.nil

/-- Claim C8: inserting a second entry under an index already present
replaces the previous value: the double insert equals the single insert of
the last value, the entry count is unchanged, the stored value is the last
one inserted, and the serialized sections coincide. -/
theorem insert_same_key_overwrites :
    ∀ (m : NameMap) (k : Nat) (v1 v2 : Name),
      IndexMap.insert (IndexMap.insert m k v1) k v2 = IndexMap.insert m k v2 ∧
      (IndexMap.insert (IndexMap.insert m k v1) k v2).length =
        (IndexMap.insert m k v1).length ∧
      List.lookup k (IndexMap.insert (IndexMap.insert m k v1) k v2) = some v2 ∧
      FunctionNameSection.serialize ⟨IndexMap.insert (IndexMap.insert m k v1) k v2⟩ =
        FunctionNameSection.serialize ⟨IndexMap.insert m k v2⟩ := by
  intro m k v1 v2
  refine ⟨IndexMap.insert_insert_same m k v1 v2, ?_, ?_, ?_⟩
  · rw [IndexMap.insert_insert_same m k v1 v2]
    exact IndexMap.insert_length_congr m k v2 v1
  · rw [IndexMap.insert_insert_same m k v1 v2]
    exact IndexMap.lookup_insert m k v2
  · rw [IndexMap.insert_insert_same m k v1 v2]

/-- Evaluation for C9 at the failing input: a crafted section declaring a
4 GiB payload over an empty stream.  In this pure model decoding simply
fails with a truncated-input error; the allocation behaviour the claim is
about (`vec![0u8; name_payload_len]` happening before `read_exact`) is a
property of the Rust code's evaluation order, visible at
`name_section.rs` lines 78-79. -/
theorem deserialize_crafted_len_eval :
    NameSection.deserialize [3, 255, 255, 255, 255, 15] = .error .truncated := rfl

/-- Claim C10: in every successful serialization the emitted length field is
the varint encoding of the exact number of payload bytes that follow it:
reading the length field back from the output yields precisely the byte
count of the remaining payload. -/
theorem serialize_len_field_consistent :
    ∀ v : NameSection, v.name_payload.length < 2 ^ 32 →
      NameSection.serialize v =
        v.name_type :: varuint32Serialize v.name_payload.length ++ v.name_payload ∧
      varuint32Deserialize (List.drop 1 (NameSection.serialize v)) =
        .ok (v.name_payload.length, v.name_payload) := by
  intro v h
  have hvar := varuint32_roundtrip v.name_payload.length v.name_payload
  rw [Nat.mod_eq_of_lt h] at hvar
  refine ⟨rfl, ?_⟩
  simp [NameSection.serialize, hvar]

/-- Witness for C10: the length field of a serialized two-byte unparsed
payload reads back as exactly 2 followed by the payload. -/
theorem serialize_len_field_consistent_witness :
    (NameSection.name_payload (.unparsed 9 [7, 7])).length < 2 ^ 32 ∧
      (NameSection.serialize (.unparsed 9 [7, 7]) =
        NameSection.name_type (.unparsed 9 [7, 7]) ::
          varuint32Serialize (NameSection.name_payload (.unparsed 9 [7, 7])).length ++
            NameSection.name_payload (.unparsed 9 [7, 7]) ∧
      varuint32Deserialize (List.drop 1 (NameSection.serialize (.unparsed 9 [7, 7]))) =
        .ok ((NameSection.name_payload (.unparsed 9 [7, 7])).length,
          NameSection.name_payload (.unparsed 9 [7, 7]))) :=
  ⟨by decide, serialize_len_field_consistent (.unparsed 9 [7, 7]) (by decide)⟩

end WasmBloat
